import Mathlib

/-!
Shallow embedding of the multi-page PDF OCR pipeline
(`pdf-vision-ocr/pdf_vision_ocr.py`): mode inference, the per-page
table aggregation step, the text-mode aggregation, output path
resolution and the CSV/Markdown sink, together with theorems about
the pipeline's aggregation and output behaviour.
-/

/-- Output mode of a run: structured table (CSV) or free text (Markdown). -/
inductive Mode
  | table
  | text
deriving DecidableEq

/-- Characters of the lowercased prompt (Python `prompt.lower()`). -/
def charsLower (s : String) : List Char :=
  s.toList.map Char.toLower

/-- Python `str.startswith` on character lists. -/
def startsWithSeq : List Char → List Char → Bool
  | [], _ => true
  | _ :: _, [] => false
  | a :: as, b :: bs => a == b && startsWithSeq as bs

/-- Python substring containment (`needle in hay`) on character lists. -/
def containsSeq (needle : List Char) : List Char → Bool
  | [] => startsWithSeq needle []
  | c :: rest => startsWithSeq needle (c :: rest) || containsSeq needle rest

/-- `infer_mode` from the source: explicit flag wins, else keyword heuristic. -/
def infer_mode (prompt : String) (modeArg : Option Mode) : Mode :=
  match modeArg with
  | some m => m
  | none =>
    let lowered := charsLower prompt
    if containsSeq "table".toList lowered || containsSeq "csv".toList lowered then
      Mode.table
    else
      Mode.text

/-- Decoded JSON values as produced by `json.loads` (objects keep key order). -/
inductive Json
  | null
  | jbool (b : Bool)
  | num (n : Int)
  | str (s : String)
  | arr (elems : List Json)
  | obj (fields : List (String × Json))

/-- Python `key in data` on a decoded JSON object. -/
def objHas (fields : List (String × Json)) (k : String) : Bool :=
  (List.lookup k fields).isSome

/-- Python iteration (`list(x)` / `extend(x)`): lists yield their elements,
strings yield one-character strings, dicts yield their keys; anything else
raises `TypeError` (modelled as `none`). -/
def pyIter : Json → Option (List Json)
  | Json.arr xs => some xs
  | Json.str s => some (s.toList.map (fun c => Json.str (String.mk [c])))
  | Json.obj fields => some (fields.map (fun p => Json.str p.1))
  | _ => none

/-- The two uncaught-vs-caught Python exceptions the aggregation loop can hit:
`TypeError` is caught by the `except` clause, `AttributeError` is not. -/
inductive PyErr
  | typeError
  | attrError
deriving DecidableEq

/-- `row.get(col, "")` for one column value: string keys are looked up with
empty-string default, other hashable values miss every string key, and
unhashable values (lists, dicts) raise `TypeError`. -/
def getField (fields : List (String × Json)) (col : Json) : Except PyErr Json :=
  match col with
  | Json.str s => Except.ok ((List.lookup s fields).getD (Json.str ""))
  | Json.arr _ => Except.error PyErr.typeError
  | Json.obj _ => Except.error PyErr.typeError
  | _ => Except.ok (Json.str "")

/-- `[row.get(col, "") for col in header]` for one row: with an empty header
the body never runs; otherwise a non-dict row raises `AttributeError`. -/
def projectRow (cols : List Json) (row : Json) : Except PyErr Json :=
  match cols with
  | [] => Except.ok (Json.arr [])
  | _ :: _ =>
    match row with
    | Json.obj fields => (cols.mapM (getField fields)).map Json.arr
    | _ => Except.error PyErr.attrError

/-- The whole list comprehension `[[row.get(col, "") for col in header] for
row in data]`: rows are projected in order and the first raised exception
wins. -/
def mapProj (cols : List Json) : List Json → Except PyErr (List Json)
  | [] => Except.ok []
  | r :: rs =>
    match projectRow cols r with
    | Except.error e => Except.error e
    | Except.ok v =>
      match mapProj cols rs with
      | Except.error e => Except.error e
      | Except.ok vs => Except.ok (v :: vs)

/-- View a JSON list as a list of records; `none` when some element is not an
object (Python `row.keys()` raises `AttributeError`). -/
def asRecords : List Json → Option (List (List (String × Json)))
  | [] => some []
  | Json.obj fields :: rest => (asRecords rest).map (fields :: ·)
  | _ :: _ => none

/-- All keys of all records, in record order (before set-dedup and sorting). -/
def recordKeys (records : List (List (String × Json))) : List String :=
  (records.map (fun fields => fields.map Prod.fst)).flatten

/-- Insertion into a lexicographically sorted list of strings. -/
def insertStr (x : String) : List String → List String
  | [] => [x]
  | y :: ys => if x ≤ y then x :: y :: ys else y :: insertStr x ys

/-- `sorted(...)` on strings: ascending lexicographic insertion sort. -/
def sortStr : List String → List String
  | [] => []
  | x :: xs => insertStr x (sortStr xs)

/-- Project one record onto a column list by key lookup with `""` default. -/
def projRecord (cols : List String) (fields : List (String × Json)) : Json :=
  Json.arr (cols.map (fun k => (List.lookup k fields).getD (Json.str "")))

/-- Running aggregate of a Table-mode run: the `header` Python variable
(initially the empty list) and the `all_rows` accumulator. -/
structure TState where
  header : Json
  rows : List Json

/-- Initial aggregate state (`header = []`, `all_rows = []`). -/
def initState : TState := ⟨Json.arr [], []⟩

/-- Outcome of the `try` body for one parsed page: normal continuation, a
caught exception (warning, loop continues), or an uncaught exception
(the run aborts). -/
inductive StepOut
  | ok (st : TState)
  | warn (st : TState)
  | fatal

/-- The Table-mode aggregation body for one page whose payload decoded as
JSON value `data` (lines 290-301 of the source). -/
def tableStep (pageNum : Nat) (st : TState) (data : Json) : StepOut :=
  if pageNum = 1 then
    match data with
    | Json.obj fields =>
      if objHas fields "columns" then
        let newHeader := (List.lookup "columns" fields).getD Json.null
        match pyIter ((List.lookup "rows" fields).getD (Json.arr [])) with
        | some xs => StepOut.ok ⟨newHeader, st.rows ++ xs⟩
        | none => StepOut.warn ⟨newHeader, st.rows⟩
      else StepOut.ok st
    | Json.arr [] => StepOut.ok st
    | Json.arr (x :: xs) =>
      match asRecords (x :: xs) with
      | none => StepOut.fatal
      | some records =>
        let cols := sortStr (recordKeys records).dedup
        StepOut.ok ⟨Json.arr (cols.map Json.str), st.rows ++ records.map (projRecord cols)⟩
    | _ => StepOut.ok st
  else
    match data with
    | Json.obj fields =>
      if objHas fields "rows" then
        match pyIter ((List.lookup "rows" fields).getD Json.null) with
        | some xs => StepOut.ok ⟨st.header, st.rows ++ xs⟩
        | none => StepOut.warn st
      else StepOut.ok st
    | Json.arr [] => StepOut.ok st
    | Json.arr (x :: xs) =>
      match pyIter st.header with
      | none => StepOut.warn st
      | some cols =>
        match mapProj cols (x :: xs) with
        | Except.ok rs => StepOut.ok ⟨st.header, st.rows ++ rs⟩
        | Except.error PyErr.attrError => StepOut.fatal
        | Except.error PyErr.typeError => StepOut.warn st
    | _ => StepOut.ok st

/-- One page of a Table-mode run as seen by the aggregation loop:
the API returned no content (fatal `OCRScriptError`), the response failed
`json.loads` (warn and skip), or it decoded to a JSON value. -/
inductive TPage
  | noContent
  | unparsed
  | parsed (j : Json)

/-- The Table-mode page loop: threads the aggregate state page by page,
collects warning page numbers, and returns `none` when the run aborts. -/
def runTableAux : Nat → TState → List Nat → List TPage → Option (TState × List Nat)
  | _, st, ws, [] => some (st, ws)
  | _, _, _, TPage.noContent :: _ => none
  | n, st, ws, TPage.unparsed :: rest => runTableAux (n + 1) st (ws ++ [n]) rest
  | n, st, ws, TPage.parsed j :: rest =>
    match tableStep n st j with
    | StepOut.ok st1 => runTableAux (n + 1) st1 ws rest
    | StepOut.warn st1 => runTableAux (n + 1) st1 (ws ++ [n]) rest
    | StepOut.fatal => none

/-- A whole Table-mode aggregation run starting from the empty state. -/
def runTable (pages : List TPage) : Option (TState × List Nat) :=
  runTableAux 1 initState [] pages


/-- The page-boundary section appended for page `n` in Text mode
(line 305 of the source). -/
def pageSection (n : Nat) (body : String) : String :=
  "\n\n---\n\n# Page " ++ toString n ++ "\n\n" ++ body

/-- `call_groq`'s content check (lines 185-188): only `None` content raises
`OCRScriptError`; any string, empty included, is returned as-is. -/
def call_groq_check (content : Option String) : Except String String :=
  match content with
  | none => Except.error "Empty response received from the Groq API."
  | some s => Except.ok s

/-- Text-mode page loop: appends one section per page; a page whose content
check fails aborts the run (`none`), mirroring the uncaught
`OCRScriptError` leaving the loop. -/
def runTextAux : Nat → List String → List (Option String) → Option (List String)
  | _, acc, [] => some acc
  | n, acc, r :: rest =>
    match call_groq_check r with
    | Except.error _ => none
    | Except.ok body => runTextAux (n + 1) (acc ++ [pageSection n body]) rest

/-- The `aggregated_markdown` list at the end of a completed Text-mode run. -/
def runTextSections (responses : List (Option String)) : Option (List String) :=
  runTextAux 1 [] responses

/-- The joined Markdown payload of a completed Text-mode run. -/
def runText (responses : List (Option String)) : Option String :=
  (runTextSections responses).map String.join

/-- Direct characterization of the sections of consecutive pages starting
at ordinal `n` (used to state what the loop produces). -/
def sectionsFrom : Nat → List String → List String
  | _, [] => []
  | n, b :: bs => pageSection n b :: sectionsFrom (n + 1) bs

/-- A `pathlib.Path`: absolute flag plus components (`.` parts dropped,
as `pathlib` normalizes them away). -/
structure PathM where
  absolute : Bool
  components : List String
deriving DecidableEq

/-- `Path.parent`: drop the last component. -/
def pathParent (p : PathM) : PathM :=
  ⟨p.absolute, p.components.dropLast⟩

/-- `pathlib`'s `/` operator: an absolute right operand replaces the left. -/
def joinPath (a b : PathM) : PathM :=
  if b.absolute then b else ⟨a.absolute, a.components ++ b.components⟩

/-- Index of the last `.` in a character list (`str.rfind`). -/
def rfindDot (cs : List Char) : Option Nat :=
  match cs.reverse.findIdx? (· == '.') with
  | some j => some (cs.length - 1 - j)
  | none => none

/-- `PurePath.stem` on one name: cut at the last dot when that dot is
neither leading nor trailing. -/
def stemOf (name : String) : String :=
  let cs := name.toList
  match rfindDot cs with
  | some i => if 0 < i ∧ i < cs.length - 1 then String.mk (cs.take i) else name
  | none => name

/-- `Path.stem` of the whole path. -/
def pathStem (p : PathM) : String :=
  stemOf (p.components.getLast?.getD "")

/-- Output path resolution of `main` (lines 307-315): the output directory is
the source PDF's parent, the default name is the PDF's stem with a
mode-dependent extension, and the output file (explicit or default) is
joined onto the output directory. -/
def resolve_output_path (pdf : PathM) (out : Option PathM) (mode : Mode) : PathM :=
  let outputDir := pathParent pdf
  let baseName := pathStem pdf
  let defaultName := baseName ++ (if mode = Mode.table then ".csv" else ".md")
  let outputFile := out.getD ⟨false, [defaultName]⟩
  joinPath outputDir outputFile

/-- A file system: file contents by path. -/
def FS := PathM → Option String

/-- QUOTE_MINIMAL: a field is quoted iff it contains the delimiter, the
quote character, or a line-terminator character. -/
def csvNeedsQuote (s : String) : Bool :=
  s.toList.any (fun c => c == ',' || c == '"' || c == '\r' || c == '\n')

/-- Double every quote character inside a quoted field. -/
def csvEscape (s : String) : String :=
  String.mk ((s.toList.map (fun c => if c == '"' then ['"', '"'] else [c])).flatten)

/-- One serialized CSV field. -/
def csvField (s : String) : String :=
  if csvNeedsQuote s then "\"" ++ csvEscape s ++ "\"" else s

/-- One serialized CSV record with the default `\r\n` terminator. -/
def csvLine (fields : List String) : String :=
  String.intercalate "," (fields.map csvField) ++ "\r\n"

/-- The bytes `write_csv` produces: header row then one line per row. -/
def csvSerialize (header : List String) (rows : List (List String)) : String :=
  csvLine header ++ String.join (rows.map csvLine)

/-- `write_csv` (lines 191-196): overwrite the destination with the
serialized table. -/
def write_csv (fs : FS) (p : PathM) (header : List String)
    (rows : List (List String)) : FS :=
  fun q => if q = p then some (csvSerialize header rows) else fs q

/-- `write_markdown` (lines 199-201): overwrite the destination with the
payload verbatim. -/
def write_markdown (fs : FS) (p : PathM) (payload : String) : FS :=
  fun q => if q = p then some payload else fs q

/-- The content handed to the sink at the end of a run: the finalized
aggregate state. -/
inductive OutContent
  | tableData (st : TState)
  | textData (body : String)

/-- One file write performed by a run. -/
structure WriteEvent where
  path : PathM
  content : OutContent

/-- End-to-end Table-mode run: the exit code and the list of file writes;
aborted runs (lines 322-327) return 1 having written nothing. -/
def mainTable (pdf : PathM) (out : Option PathM) (pages : List TPage) :
    Nat × List WriteEvent :=
  match runTable pages with
  | none => (1, [])
  | some (st, _) =>
    (0, [⟨resolve_output_path pdf out Mode.table, OutContent.tableData st⟩])

/-- End-to-end Text-mode run: the exit code and the list of file writes. -/
def mainText (pdf : PathM) (out : Option PathM)
    (responses : List (Option String)) : Nat × List WriteEvent :=
  match runText responses with
  | none => (1, [])
  | some body =>
    (0, [⟨resolve_output_path pdf out Mode.text, OutContent.textData body⟩])

/-- The header a completed run must end with, as a function of page 1 alone. -/
def firstPageHeader (p : TPage) : Option Json :=
  match p with
  | TPage.noContent => none
  | TPage.unparsed => some initState.header
  | TPage.parsed j =>
    match tableStep 1 initState j with
    | StepOut.ok st => some st.header
    | StepOut.warn st => some st.header
    | StepOut.fatal => none


theorem startsWithSeq_iff (needle hay : List Char) :
    startsWithSeq needle hay = true ↔ ∃ t, hay = needle ++ t := by
  induction needle generalizing hay with
  | nil => simp [startsWithSeq]
  | cons a as ih =>
    cases hay with
    | nil => simp [startsWithSeq]
    | cons b bs =>
      simp only [startsWithSeq, Bool.and_eq_true, beq_iff_eq]
      constructor
      · rintro ⟨rfl, h⟩
        obtain ⟨t, rfl⟩ := (ih bs).1 h
        exact ⟨t, rfl⟩
      · rintro ⟨t, ht⟩
        injection ht with h1 h2
        subst h1
        exact ⟨rfl, (ih bs).2 ⟨t, h2⟩⟩

theorem containsSeq_iff (needle hay : List Char) :
    containsSeq needle hay = true ↔ ∃ pre post, hay = pre ++ needle ++ post := by
  induction hay with
  | nil =>
    show startsWithSeq needle [] = true ↔ _
    rw [startsWithSeq_iff]
    constructor
    · rintro ⟨t, ht⟩
      exact ⟨[], t, ht⟩
    · rintro ⟨pre, post, h⟩
      have h' := h.symm
      rw [List.append_eq_nil] at h'
      obtain ⟨h1, h2⟩ := h'
      rw [List.append_eq_nil] at h1
      exact ⟨[], by simp [h1.2]⟩
  | cons c rest ih =>
    show (startsWithSeq needle (c :: rest) || containsSeq needle rest) = true ↔ _
    rw [Bool.or_eq_true, startsWithSeq_iff, ih]
    constructor
    · rintro (⟨t, ht⟩ | ⟨pre, post, h⟩)
      · exact ⟨[], t, ht⟩
      · exact ⟨c :: pre, post, by simp [h]⟩
    · rintro ⟨pre, post, h⟩
      cases pre with
      | nil => exact Or.inl ⟨post, by simpa using h⟩
      | cons p ps =>
        injection h with h1 h2
        exact Or.inr ⟨ps, post, h2⟩

theorem infer_mode_none_table (p : String) :
    infer_mode p none = Mode.table ↔
      (containsSeq "table".toList (charsLower p) ||
       containsSeq "csv".toList (charsLower p)) = true := by
  have hlet : infer_mode p none =
      if (containsSeq "table".toList (charsLower p) ||
          containsSeq "csv".toList (charsLower p)) then Mode.table
      else Mode.text := rfl
  rw [hlet]
  cases h : containsSeq "table".toList (charsLower p) ||
      containsSeq "csv".toList (charsLower p)
  · simp
  · simp

/-- C5: the Mode Resolver returns the explicit mode when one is given;
otherwise it returns Table exactly when the lowercased prompt contains the
substring "table" or "csv", and Text otherwise; in particular an explicit
mode always wins over the prompt heuristic. -/
theorem infer_mode_spec :
    (∀ (p : String) (m : Mode), infer_mode p (some m) = m) ∧
    (∀ p : String, infer_mode p none = Mode.table ↔
      ((∃ pre post, charsLower p = pre ++ "table".toList ++ post) ∨
       (∃ pre post, charsLower p = pre ++ "csv".toList ++ post))) ∧
    (∀ p : String, infer_mode p none = Mode.text ↔
      ¬ ((∃ pre post, charsLower p = pre ++ "table".toList ++ post) ∨
         (∃ pre post, charsLower p = pre ++ "csv".toList ++ post))) := by
  refine ⟨fun p m => rfl, fun p => ?_, fun p => ?_⟩
  · rw [infer_mode_none_table, Bool.or_eq_true, containsSeq_iff, containsSeq_iff]
  · have hdich : infer_mode p none = Mode.text ↔
        ¬ infer_mode p none = Mode.table := by
      cases hm : infer_mode p none <;> simp
    rw [hdich, infer_mode_none_table, Bool.or_eq_true, containsSeq_iff,
      containsSeq_iff]

theorem runTextAux_map_some (bodies : List String) :
    ∀ (n : Nat) (acc : List String),
      runTextAux n acc (bodies.map Option.some) = some (acc ++ sectionsFrom n bodies) := by
  induction bodies with
  | nil => intro n acc; simp [runTextAux, sectionsFrom]
  | cons b bs ih =>
    intro n acc
    show runTextAux (n + 1) (acc ++ [pageSection n b]) (bs.map Option.some) = _
    rw [ih]
    simp [sectionsFrom]

theorem runTextAux_none_iff (responses : List (Option String)) :
    ∀ (n : Nat) (acc : List String),
      (runTextAux n acc responses = none ↔ none ∈ responses) := by
  induction responses with
  | nil => intro n acc; simp [runTextAux]
  | cons r rest ih =>
    intro n acc
    cases r with
    | none =>
      constructor
      · intro _; exact List.mem_cons_self _ _
      · intro _; rfl
    | some b =>
      show (runTextAux (n + 1) (acc ++ [pageSection n b]) rest = none ↔ _)
      rw [ih]
      simp

/-- C6: in Text mode, a completed run's aggregate holds exactly one
page-boundary section per page, carrying 1-based ordinals in ascending
order; a page whose extraction failed aborts the run, which then produces
no aggregate (and hence no sections) at all. -/
theorem text_mode_sections_spec :
    (∀ bodies : List String,
      runTextSections (bodies.map Option.some) = some (sectionsFrom 1 bodies)) ∧
    (∀ responses : List (Option String),
      (runTextSections responses = none ↔ none ∈ responses)) ∧
    (∀ bodies : List String,
      runText (bodies.map Option.some) = some (String.join (sectionsFrom 1 bodies))) := by
  refine ⟨fun bodies => ?_, fun responses => ?_, fun bodies => ?_⟩
  · unfold runTextSections
    rw [runTextAux_map_some]
    simp
  · unfold runTextSections
    rw [runTextAux_none_iff]
  · unfold runText runTextSections
    rw [runTextAux_map_some]
    simp

/-- C3 counterexample: a Text-mode run over a single page whose extraction
returned the empty string succeeds (exit code 0) and writes an output file
whose single section has an empty body — it does not fail and the file is
created. -/
theorem empty_string_response_still_writes_output :
    mainText ⟨false, ["a.pdf"]⟩ none [some ""] =
      (0, [⟨⟨false, ["a.md"]⟩, OutContent.textData "\n\n---\n\n# Page 1\n\n"⟩]) := rfl

/-- C3 amended: only an absent payload (the API returned no content) is a
hard page failure: the run exits 1 and writes no file; an empty-string
payload is accepted and the run succeeds, writing exactly one file. -/
theorem none_content_aborts_text_run :
    ∀ (pdf : PathM) (out : Option PathM) (responses : List (Option String)),
      (none ∈ responses → mainText pdf out responses = (1, [])) ∧
      ((mainText pdf out [some ""]).1 = 0 ∧
        (mainText pdf out [some ""]).2.length = 1) := by
  intro pdf out responses
  refine ⟨?_, rfl, rfl⟩
  intro hmem
  have h1 : runTextSections responses = none :=
    (runTextAux_none_iff responses 1 []).2 hmem
  have h2 : runText responses = none := by
    unfold runText
    rw [h1]
    rfl
  unfold mainText
  rw [h2]

/-- C3 amended witness: a single-page run whose page has no content at all
exits 1 and writes nothing. -/
theorem none_content_aborts_text_run_witness :
    mainText ⟨false, ["a.pdf"]⟩ none [none] = (1, []) :=
  (none_content_aborts_text_run ⟨false, ["a.pdf"]⟩ none [none]).1 (by simp)

/-- C9: the Sink is a deterministic overwrite: writing the same finalized
aggregate to the same destination twice equals writing it once, the
destination's resulting content is a function of the input alone
(independent of the prior file-system contents), and it equals the fixed
serialization of the input. -/
theorem sink_deterministic_idempotent :
    ∀ (fs fs2 : FS) (p : PathM) (header : List String)
      (rows : List (List String)) (payload : String),
      write_csv (write_csv fs p header rows) p header rows =
        write_csv fs p header rows ∧
      write_csv fs p header rows p = some (csvSerialize header rows) ∧
      write_csv fs p header rows p = write_csv fs2 p header rows p ∧
      write_markdown (write_markdown fs p payload) p payload =
        write_markdown fs p payload ∧
      write_markdown fs p payload p = some payload ∧
      write_markdown fs p payload p = write_markdown fs2 p payload p := by
  intro fs fs2 p header rows payload
  refine ⟨?_, ?_, ?_, ?_, ?_, ?_⟩
  · funext q
    unfold write_csv
    by_cases h : q = p <;> simp [h]
  · unfold write_csv
    simp
  · unfold write_csv
    simp
  · funext q
    unfold write_markdown
    by_cases h : q = p <;> simp [h]
  · unfold write_markdown
    simp
  · unfold write_markdown
    simp

theorem tableStep_shape (n : Nat) (st : TState) (d : Json) :
    (∃ st1 t, tableStep n st d = StepOut.ok st1 ∧ st1.rows = st.rows ++ t ∧
      (n = 1 ∨ st1.header = st.header)) ∨
    (∃ st1, tableStep n st d = StepOut.warn st1 ∧ st1.rows = st.rows ∧
      (n = 1 ∨ st1.header = st.header)) ∨
    tableStep n st d = StepOut.fatal := by
  by_cases hn : n = 1
  · cases d with
    | null => exact Or.inl ⟨st, [], by simp [tableStep, hn], by simp, Or.inl hn⟩
    | jbool b => exact Or.inl ⟨st, [], by simp [tableStep, hn], by simp, Or.inl hn⟩
    | num m => exact Or.inl ⟨st, [], by simp [tableStep, hn], by simp, Or.inl hn⟩
    | str s => exact Or.inl ⟨st, [], by simp [tableStep, hn], by simp, Or.inl hn⟩
    | arr xs =>
      cases xs with
      | nil => exact Or.inl ⟨st, [], by simp [tableStep, hn], by simp, Or.inl hn⟩
      | cons x rest =>
        cases hk : asRecords (x :: rest) with
        | none => exact Or.inr (Or.inr (by simp [tableStep, hn, hk]))
        | some records =>
          exact Or.inl ⟨⟨Json.arr ((sortStr (recordKeys records).dedup).map Json.str),
            st.rows ++ records.map (projRecord (sortStr (recordKeys records).dedup))⟩,
            records.map (projRecord (sortStr (recordKeys records).dedup)),
            by simp [tableStep, hn, hk], rfl, Or.inl hn⟩
    | obj fields =>
      cases hc : objHas fields "columns" with
      | true =>
        cases hpi : pyIter ((List.lookup "rows" fields).getD (Json.arr [])) with
        | some xs =>
          exact Or.inl ⟨⟨(List.lookup "columns" fields).getD Json.null, st.rows ++ xs⟩,
            xs, by simp [tableStep, hn, hc, hpi], rfl, Or.inl hn⟩
        | none =>
          exact Or.inr (Or.inl ⟨⟨(List.lookup "columns" fields).getD Json.null, st.rows⟩,
            by simp [tableStep, hn, hc, hpi], rfl, Or.inl hn⟩)
      | false =>
        exact Or.inl ⟨st, [], by simp [tableStep, hn, hc], by simp, Or.inl hn⟩
  · cases d with
    | null => exact Or.inl ⟨st, [], by simp [tableStep, hn], by simp, Or.inr rfl⟩
    | jbool b => exact Or.inl ⟨st, [], by simp [tableStep, hn], by simp, Or.inr rfl⟩
    | num m => exact Or.inl ⟨st, [], by simp [tableStep, hn], by simp, Or.inr rfl⟩
    | str s => exact Or.inl ⟨st, [], by simp [tableStep, hn], by simp, Or.inr rfl⟩
    | arr xs =>
      cases xs with
      | nil => exact Or.inl ⟨st, [], by simp [tableStep, hn], by simp, Or.inr rfl⟩
      | cons x rest =>
        cases hpi : pyIter st.header with
        | none => exact Or.inr (Or.inl ⟨st, by simp [tableStep, hn, hpi], rfl, Or.inr rfl⟩)
        | some cols =>
          cases hm : mapProj cols (x :: rest) with
          | ok rs =>
            exact Or.inl ⟨⟨st.header, st.rows ++ rs⟩, rs,
              by simp [tableStep, hn, hpi, hm], rfl, Or.inr rfl⟩
          | error e =>
            cases e with
            | attrError => exact Or.inr (Or.inr (by simp [tableStep, hn, hpi, hm]))
            | typeError =>
              exact Or.inr (Or.inl ⟨st, by simp [tableStep, hn, hpi, hm], rfl, Or.inr rfl⟩)
    | obj fields =>
      cases hr : objHas fields "rows" with
      | true =>
        cases hpi : pyIter ((List.lookup "rows" fields).getD Json.null) with
        | some xs =>
          exact Or.inl ⟨⟨st.header, st.rows ++ xs⟩, xs,
            by simp [tableStep, hn, hr, hpi], rfl, Or.inr rfl⟩
        | none =>
          exact Or.inr (Or.inl ⟨st, by simp [tableStep, hn, hr, hpi], rfl, Or.inr rfl⟩)
      | false =>
        exact Or.inl ⟨st, [], by simp [tableStep, hn, hr], by simp, Or.inr rfl⟩

theorem runTableAux_ws_mem : ∀ (ps : List TPage) (n : Nat) (st : TState)
    (ws : List Nat) (st' : TState) (ws' : List Nat),
    runTableAux n st ws ps = some (st', ws') → ∀ w ∈ ws, w ∈ ws' := by
  intro ps
  induction ps with
  | nil =>
    intro n st ws st' ws' h w hw
    simp only [runTableAux, Option.some.injEq, Prod.mk.injEq] at h
    rw [← h.2]
    exact hw
  | cons pg rest ih =>
    intro n st ws st' ws' h w hw
    cases pg with
    | noContent => simp [runTableAux] at h
    | unparsed =>
      have h' : runTableAux (n + 1) st (ws ++ [n]) rest = some (st', ws') := h
      exact ih (n + 1) st (ws ++ [n]) st' ws' h' w (List.mem_append_left _ hw)
    | parsed j =>
      cases hstep : tableStep n st j with
      | ok st1 =>
        have h' : runTableAux (n + 1) st1 ws rest = some (st', ws') := by
          simpa [runTableAux, hstep] using h
        exact ih (n + 1) st1 ws st' ws' h' w hw
      | warn st1 =>
        have h' : runTableAux (n + 1) st1 (ws ++ [n]) rest = some (st', ws') := by
          simpa [runTableAux, hstep] using h
        exact ih (n + 1) st1 (ws ++ [n]) st' ws' h' w (List.mem_append_left _ hw)
      | fatal => simp [runTableAux, hstep] at h

theorem runTableAux_header : ∀ (ps : List TPage) (n : Nat), 2 ≤ n →
    ∀ (st : TState) (ws : List Nat) (st' : TState) (ws' : List Nat),
    runTableAux n st ws ps = some (st', ws') → st'.header = st.header := by
  intro ps
  induction ps with
  | nil =>
    intro n hn st ws st' ws' h
    simp only [runTableAux, Option.some.injEq, Prod.mk.injEq] at h
    rw [← h.1]
  | cons pg rest ih =>
    intro n hn st ws st' ws' h
    cases pg with
    | noContent => simp [runTableAux] at h
    | unparsed =>
      exact ih (n + 1) (by omega) st (ws ++ [n]) st' ws' h
    | parsed j =>
      rcases tableStep_shape n st j with ⟨st1, t, hstep, hrows, hhd⟩ |
        ⟨st1, hstep, hrows, hhd⟩ | hstep
      · have h' : runTableAux (n + 1) st1 ws rest = some (st', ws') := by
          simpa [runTableAux, hstep] using h
        have h2 := ih (n + 1) (by omega) st1 ws st' ws' h'
        rcases hhd with h1 | h1
        · omega
        · rw [h2, h1]
      · have h' : runTableAux (n + 1) st1 (ws ++ [n]) rest = some (st', ws') := by
          simpa [runTableAux, hstep] using h
        have h2 := ih (n + 1) (by omega) st1 (ws ++ [n]) st' ws' h'
        rcases hhd with h1 | h1
        · omega
        · rw [h2, h1]
      · simp [runTableAux, hstep] at h

theorem runTableAux_count : ∀ (ps : List TPage) (n : Nat) (st : TState)
    (ws : List Nat) (st' : TState) (ws' : List Nat),
    runTableAux n st ws ps = some (st', ws') →
    ∃ cs : List Nat, cs.length = ps.length ∧
      st'.rows.length = st.rows.length + cs.sum ∧
      ∀ i < ps.length, ps.getD i TPage.noContent = TPage.unparsed →
        cs.getD i 1 = 0 ∧ (n + i) ∈ ws' := by
  intro ps
  induction ps with
  | nil =>
    intro n st ws st' ws' h
    simp only [runTableAux, Option.some.injEq, Prod.mk.injEq] at h
    refine ⟨[], rfl, by rw [← h.1]; simp, ?_⟩
    intro i hi
    simp at hi
  | cons pg rest ih =>
    intro n st ws st' ws' h
    cases pg with
    | noContent => simp [runTableAux] at h
    | unparsed =>
      have h' : runTableAux (n + 1) st (ws ++ [n]) rest = some (st', ws') := h
      obtain ⟨cs, hlen, hsum, hcond⟩ := ih (n + 1) st (ws ++ [n]) st' ws' h'
      refine ⟨0 :: cs, by simp [hlen], by simpa using hsum, ?_⟩
      intro i hi hpi
      cases i with
      | zero =>
        refine ⟨rfl, ?_⟩
        have hmem : n ∈ ws ++ [n] := by simp
        simpa using runTableAux_ws_mem rest (n + 1) st (ws ++ [n]) st' ws' h' n hmem
      | succ i2 =>
        have h3 := hcond i2 (by simpa using hi) (by simpa using hpi)
        refine ⟨by simpa using h3.1, ?_⟩
        have h4 := h3.2
        have harith : n + (i2 + 1) = n + 1 + i2 := by omega
        rw [harith]
        exact h4
    | parsed j =>
      rcases tableStep_shape n st j with ⟨st1, t, hstep, hrows, _⟩ |
        ⟨st1, hstep, hrows, _⟩ | hstep
      · have h' : runTableAux (n + 1) st1 ws rest = some (st', ws') := by
          simpa [runTableAux, hstep] using h
        obtain ⟨cs, hlen, hsum, hcond⟩ := ih (n + 1) st1 ws st' ws' h'
        refine ⟨t.length :: cs, by simp [hlen], ?_, ?_⟩
        · rw [hsum, hrows]
          simp [List.length_append]
          omega
        · intro i hi hpi
          cases i with
          | zero => simp at hpi
          | succ i2 =>
            have h3 := hcond i2 (by simpa using hi) (by simpa using hpi)
            refine ⟨by simpa using h3.1, ?_⟩
            have harith : n + (i2 + 1) = n + 1 + i2 := by omega
            rw [harith]
            exact h3.2
      · have h' : runTableAux (n + 1) st1 (ws ++ [n]) rest = some (st', ws') := by
          simpa [runTableAux, hstep] using h
        obtain ⟨cs, hlen, hsum, hcond⟩ := ih (n + 1) st1 (ws ++ [n]) st' ws' h'
        refine ⟨0 :: cs, by simp [hlen], by rw [hsum, hrows]; simp, ?_⟩
        intro i hi hpi
        cases i with
        | zero => simp at hpi
        | succ i2 =>
          have h3 := hcond i2 (by simpa using hi) (by simpa using hpi)
          refine ⟨by simpa using h3.1, ?_⟩
          have harith : n + (i2 + 1) = n + 1 + i2 := by omega
          rw [harith]
          exact h3.2
      · simp [runTableAux, hstep] at h

/-- C1 counterexample: page 1 fails to parse and page 2 parses with columns
["X"], yet the run's final header is the initial empty list, not ["X"] —
a later page's columns never become the schema. -/
theorem header_not_from_later_page :
    runTable [TPage.unparsed,
      TPage.parsed (Json.obj [("columns", Json.arr [Json.str "X"]),
        ("rows", Json.arr [])])] = some (⟨Json.arr [], []⟩, [1]) ∧
    Json.arr [] ≠ Json.arr [Json.str "X"] := by
  refine ⟨rfl, ?_⟩
  intro h
  injection h with h2
  exact List.cons_ne_nil _ _ h2.symm

/-- C1 amended: the TableSchema is established by page 1 alone — the final
header of every completed Table-mode run equals the header produced by
processing page 1; in particular, when page 1's payload fails to parse the
header stays empty for the rest of the run regardless of later pages'
column sets. -/
theorem header_established_only_by_page_one (p : TPage) (ps : List TPage)
    (st' : TState) (ws' : List Nat)
    (h : runTable (p :: ps) = some (st', ws')) :
    firstPageHeader p = some st'.header := by
  cases p with
  | noContent => simp [runTable, runTableAux] at h
  | unparsed =>
    have h' : runTableAux 2 initState [1] ps = some (st', ws') := h
    have h2 := runTableAux_header ps 2 (le_refl 2) initState [1] st' ws' h'
    show some initState.header = some st'.header
    rw [h2]
  | parsed j =>
    cases hstep : tableStep 1 initState j with
    | ok st1 =>
      have h' : runTableAux 2 st1 [] ps = some (st', ws') := by
        simpa [runTable, runTableAux, hstep] using h
      have h2 := runTableAux_header ps 2 (le_refl 2) st1 [] st' ws' h'
      show (match tableStep 1 initState j with
        | StepOut.ok st => some st.header
        | StepOut.warn st => some st.header
        | StepOut.fatal => none) = some st'.header
      rw [hstep, h2]
    | warn st1 =>
      have h' : runTableAux 2 st1 [1] ps = some (st', ws') := by
        simpa [runTable, runTableAux, hstep] using h
      have h2 := runTableAux_header ps 2 (le_refl 2) st1 [1] st' ws' h'
      show (match tableStep 1 initState j with
        | StepOut.ok st => some st.header
        | StepOut.warn st => some st.header
        | StepOut.fatal => none) = some st'.header
      rw [hstep, h2]
    | fatal =>
      have hnone : runTable (TPage.parsed j :: ps) = none := by
        simp [runTable, runTableAux, hstep]
      rw [hnone] at h
      cases h

/-- C1 amended witness: a run whose page 1 establishes columns ["X"]. -/
theorem header_established_only_by_page_one_witness :
    firstPageHeader (TPage.parsed (Json.obj [("columns", Json.arr [Json.str "X"]),
      ("rows", Json.arr [])])) = some (Json.arr [Json.str "X"]) :=
  header_established_only_by_page_one _ [TPage.unparsed]
    ⟨Json.arr [Json.str "X"], []⟩ [2] rfl

/-- C2 counterexample: page 1 establishes schema ["A"]; page 2's payload is
the JSON list [1], which does not parse as a recognized structured payload,
yet the run aborts entirely (uncaught AttributeError) instead of
contributing zero rows, continuing, and warning. -/
theorem nonrecord_list_payload_aborts_run :
    runTable [TPage.parsed (Json.obj [("columns", Json.arr [Json.str "A"]),
      ("rows", Json.arr [Json.arr [Json.str "1"]])]),
      TPage.parsed (Json.arr [Json.num 1])] = none := rfl

/-- C2 amended: for every Table-mode run that completes, there is a per-page
contribution list with one entry per page whose sum is the output row
count, and every page whose payload failed JSON parsing contributes zero
rows and has its page number recorded on the warnings channel; a page can
however abort the whole run (see the counterexample), in which case no
output exists at all. -/
theorem row_count_invariant_amended (ps : List TPage) (st' : TState)
    (ws' : List Nat) (h : runTable ps = some (st', ws')) :
    ∃ cs : List Nat, cs.length = ps.length ∧
      st'.rows.length = cs.sum ∧
      ∀ i < ps.length, ps.getD i TPage.noContent = TPage.unparsed →
        cs.getD i 1 = 0 ∧ (1 + i) ∈ ws' := by
  obtain ⟨cs, hlen, hsum, hcond⟩ := runTableAux_count ps 1 initState [] st' ws' h
  exact ⟨cs, hlen, by simpa [initState] using hsum, hcond⟩

/-- C2 amended witness: a two-page run (page 1 contributes one row, page 2
fails to parse) satisfies the contribution-list property. -/
theorem row_count_invariant_amended_witness :
    ∃ cs : List Nat, cs.length =
      ([TPage.parsed (Json.obj [("columns", Json.arr [Json.str "A"]),
        ("rows", Json.arr [Json.arr [Json.str "1"]])]),
        TPage.unparsed] : List TPage).length ∧
      ([Json.arr [Json.str "1"]] : List Json).length = cs.sum ∧
      ∀ i < ([TPage.parsed (Json.obj [("columns", Json.arr [Json.str "A"]),
        ("rows", Json.arr [Json.arr [Json.str "1"]])]),
        TPage.unparsed] : List TPage).length,
        ([TPage.parsed (Json.obj [("columns", Json.arr [Json.str "A"]),
          ("rows", Json.arr [Json.arr [Json.str "1"]])]),
          TPage.unparsed] : List TPage).getD i TPage.noContent = TPage.unparsed →
        cs.getD i 1 = 0 ∧ (1 + i) ∈ [2] :=
  row_count_invariant_amended _ ⟨Json.arr [Json.str "A"], [Json.arr [Json.str "1"]]⟩
    [2] rfl

/-- C4: with established schema ["Name", "Amount"], a later page parsing as
[{"Amount": "10", "Name": "A"}] contributes exactly the row ["A", "10"]:
each value is looked up by schema column name with empty-string default, so
column order follows the schema, not the record's key order. -/
theorem projection_follows_schema_order (n : Nat) (st : TState) (hn : n ≠ 1)
    (hh : st.header = Json.arr [Json.str "Name", Json.str "Amount"]) :
    tableStep n st (Json.arr [Json.obj [("Amount", Json.str "10"),
      ("Name", Json.str "A")]]) =
      StepOut.ok ⟨st.header, st.rows ++ [Json.arr [Json.str "A", Json.str "10"]]⟩ := by
  unfold tableStep
  rw [if_neg hn, hh]
  rfl

/-- C4 witness at page 2 with an empty accumulator. -/
theorem projection_follows_schema_order_witness :
    tableStep 2 ⟨Json.arr [Json.str "Name", Json.str "Amount"], []⟩
      (Json.arr [Json.obj [("Amount", Json.str "10"), ("Name", Json.str "A")]]) =
      StepOut.ok ⟨Json.arr [Json.str "Name", Json.str "Amount"],
        [Json.arr [Json.str "A", Json.str "10"]]⟩ :=
  projection_follows_schema_order 2 _ (by decide) rfl

/-- C10: on every page after page 1 whose payload is a JSON object with a
"rows" key holding a list, that list is appended to the accumulated rows
verbatim — no projection onto the established header, no length check
against it, and no comparison of the object's own "columns" with the
schema. -/
theorem rows_appended_verbatim (n : Nat) (st : TState)
    (fields : List (String × Json)) (rs : List Json) (hn : n ≠ 1)
    (hr : List.lookup "rows" fields = some (Json.arr rs)) :
    tableStep n st (Json.obj fields) = StepOut.ok ⟨st.header, st.rows ++ rs⟩ := by
  unfold tableStep
  rw [if_neg hn]
  simp [objHas, hr, pyIter]

/-- C10 witness: a page-2 object carrying its own different "columns" and a
3-value row is appended verbatim under a 1-column established header. -/
theorem rows_appended_verbatim_witness :
    tableStep 2 ⟨Json.arr [Json.str "A"], []⟩
      (Json.obj [("columns", Json.arr [Json.str "B"]),
        ("rows", Json.arr [Json.arr [Json.str "1", Json.str "2", Json.str "3"]])]) =
      StepOut.ok ⟨Json.arr [Json.str "A"],
        [Json.arr [Json.str "1", Json.str "2", Json.str "3"]]⟩ ∧
    (3 : Nat) ≠ 1 :=
  ⟨rows_appended_verbatim 2 _ _ _ (by decide) rfl, by decide⟩

/-- C7: a run writes at most one file, writes nothing when it aborts, and on
success performs exactly one write, of the finalized aggregate, at the
resolved destination — a mid-run abort never produces a partial file. -/
theorem output_written_once_after_all_pages :
    ∀ (pdf : PathM) (out : Option PathM) (pages : List TPage)
      (responses : List (Option String)),
      (mainTable pdf out pages).2.length ≤ 1 ∧
      (mainText pdf out responses).2.length ≤ 1 ∧
      (runTable pages = none → mainTable pdf out pages = (1, [])) ∧
      (runText responses = none → mainText pdf out responses = (1, [])) ∧
      (∀ st ws, runTable pages = some (st, ws) →
        (mainTable pdf out pages).2 =
          [⟨resolve_output_path pdf out Mode.table, OutContent.tableData st⟩]) ∧
      (∀ body, runText responses = some body →
        (mainText pdf out responses).2 =
          [⟨resolve_output_path pdf out Mode.text, OutContent.textData body⟩]) := by
  intro pdf out pages responses
  refine ⟨?_, ?_, ?_, ?_, ?_, ?_⟩
  · unfold mainTable
    cases h : runTable pages with
    | none => simp
    | some stws => cases stws; simp
  · unfold mainText
    cases h : runText responses with
    | none => simp
    | some body => simp
  · intro h
    unfold mainTable
    rw [h]
  · intro h
    unfold mainText
    rw [h]
  · intro st ws h
    unfold mainTable
    rw [h]
  · intro body h
    unfold mainText
    rw [h]

/-- C7 witness: an aborted Table run and an aborted Text run write nothing;
an empty (trivially completed) Table run writes exactly one file. -/
theorem output_written_once_after_all_pages_witness :
    mainTable ⟨false, ["a.pdf"]⟩ none [TPage.noContent] = (1, []) ∧
    mainText ⟨false, ["a.pdf"]⟩ none [none] = (1, []) ∧
    (mainTable ⟨false, ["a.pdf"]⟩ none []).2 =
      [⟨resolve_output_path ⟨false, ["a.pdf"]⟩ none Mode.table,
        OutContent.tableData initState⟩] :=
  ⟨(output_written_once_after_all_pages ⟨false, ["a.pdf"]⟩ none
      [TPage.noContent] []).2.2.1 rfl,
   (output_written_once_after_all_pages ⟨false, ["a.pdf"]⟩ none
      [] [none]).2.2.2.1 rfl,
   (output_written_once_after_all_pages ⟨false, ["a.pdf"]⟩ none
      [] []).2.2.2.2.1 initState [] rfl⟩

/-- C8 counterexample: with the source document in subdirectory "d" and an
explicit relative output path "o.csv", the resolved destination is
"d/o.csv" — the explicit path joined onto the PDF's directory — and not the
explicit path "o.csv" itself. -/
theorem explicit_output_joined_to_pdf_dir :
    resolve_output_path ⟨false, ["d", "a.pdf"]⟩ (some ⟨false, ["o.csv"]⟩)
        Mode.table = ⟨false, ["d", "o.csv"]⟩ ∧
    resolve_output_path ⟨false, ["d", "a.pdf"]⟩ (some ⟨false, ["o.csv"]⟩)
        Mode.table ≠ ⟨false, ["o.csv"]⟩ := by
  constructor
  · rfl
  · decide

/-- C8 amended: exactly one output file is written, at the resolved
destination: the explicit --output joined onto the source document's parent
directory when given (an absolute --output is thereby honored as-is, while
a relative one lands inside the source's directory); otherwise the source's
stem with ".csv"/".md" appended, placed alongside the source. -/
theorem resolve_output_path_amended :
    ∀ (pdf o : PathM),
      resolve_output_path pdf (some o) Mode.table = joinPath (pathParent pdf) o ∧
      resolve_output_path pdf (some o) Mode.text = joinPath (pathParent pdf) o ∧
      resolve_output_path pdf none Mode.table =
        joinPath (pathParent pdf) ⟨false, [pathStem pdf ++ ".csv"]⟩ ∧
      resolve_output_path pdf none Mode.text =
        joinPath (pathParent pdf) ⟨false, [pathStem pdf ++ ".md"]⟩ ∧
      (∀ (bodies : List String) (out : Option PathM),
        (mainText pdf out (bodies.map Option.some)).2.map WriteEvent.path =
          [resolve_output_path pdf out Mode.text]) := by
  intro pdf o
  refine ⟨rfl, rfl, rfl, rfl, ?_⟩
  intro bodies out
  have h : runText (bodies.map Option.some) =
      some (String.join (sectionsFrom 1 bodies)) := by
    unfold runText runTextSections
    rw [runTextAux_map_some]
    simp
  unfold mainText
  rw [h]
  rfl
